import Mathlib

/-!
Shallow embedding of the Vector class of src/vectors.py.

Modelling conventions:
* Python Decimal values are modelled as exact rationals (the spec calls them
  arbitrary-precision decimal numbers).  The one non-finite wrinkle that the
  claims exercise, namely that the Decimal constructor happily parses NaN and
  Infinity literals without raising decimal.InvalidOperation, is modelled in
  the constructor layer by the Dec type below.
* The float primitives math.sqrt, math.acos and math.degrees that the source
  routes Decimal values through are modelled as abstract parameters
  sq, ac, dg of type rat -> rat: the claims under verification are about the
  control flow and algebra around these primitives, not about their values.
* Python exceptions are modelled by the Err type; each constructor names the
  error kind of the spec taxonomy and is raised at the same program point as
  the corresponding raise statement in the source.
* Fallible methods return Except Err; a raised exception is .error e.
* The source constructor rejects empty input, so every Vector produced by the
  class has a non-empty coordinate list; theorems that need this invariant
  take it as an explicit hypothesis.
-/

namespace Laru

/-- Error kinds of the spec taxonomy, one per raise site of the source:
ValueError in the constructor (EmptyVectorError), the TypeError branch of the
constructor (NotIterableError), decimal.InvalidOperation (InvalidNumberError),
the isinstance TypeError of the binary operations (NotAVectorError),
NotImplementedError in cross (UnsupportedDimensionError), ZeroDivisionError in
norm (ZeroVectorError), the bare Exception in theta (ZeroMagnitudeError),
IndexError from positional indexing, and the TypeError in mul
(InvalidOperandError). -/
inductive Err
  | emptyVector
  | notIterable
  | invalidNumber
  | notAVector
  | unsupportedDimension
  | zeroVector
  | zeroMagnitude
  | indexError
  | invalidOperand
  deriving DecidableEq, Repr

/-- Model of an already-constructed Vector instance: the tuple of stored
Decimal coordinates, modelled as exact rationals (the finite-Decimal case;
the constructor-level model below also tracks non-finite Decimals). -/
structure Vector where
  coordinates : List ℚ
  deriving DecidableEq, Repr

/-- Derived dimension attribute: the length of the coordinate tuple. -/
def Vector.dimension (v : Vector) : Nat := v.coordinates.length

/-- Model of a Python value passed as the operand of a binary method:
either a Vector instance, a plain number, or anything else.  The source
dispatches on isinstance(v, Vector) and isinstance(v, numbers.Number). -/
inductive PyVal
  | vec (v : Vector)
  | num (q : ℚ)
  | other
  deriving Repr

/-- Model of a stored Decimal value at the constructor level: the Python
Decimal constructor accepts NaN and Infinity literals, so a stored coordinate
is either a finite decimal (an exact rational here) or a non-finite one. -/
inductive Dec
  | fin (q : ℚ)
  | nan
  | inf
  deriving DecidableEq, Repr

/-- Model of one element of the constructor input: a value that parses to a
finite Decimal, a NaN literal (for example the string NaN or a float nan),
an Infinity literal, or a value on which Decimal raises
decimal.InvalidOperation (for example an unparseable string). -/
inductive PyElem
  | num (q : ℚ)
  | nanLit
  | infLit
  | bad
  deriving DecidableEq, Repr

/-- Model of the whole constructor argument: an iterable of elements (a list
or tuple; truthy exactly when non-empty) or a non-iterable object with the
given truthiness (0 and None are falsy non-iterables, 5 or object() truthy). -/
inductive PyInput
  | iter (xs : List PyElem)
  | nonIter (truthy : Bool)
  deriving Repr

/-- Python truthiness test performed by the guard if not coordinates. -/
def falsy : PyInput → Bool
  | .iter xs => xs.isEmpty
  | .nonIter t => !t

/-- Iterating the input, as the list comprehension does: a non-iterable
object raises TypeError, which the constructor maps to the not-iterable
error. -/
def elems : PyInput → Except Err (List PyElem)
  | .iter xs => .ok xs
  | .nonIter _ => .error .notIterable

/-- Model of Decimal(x) on one element: NaN and Infinity literals parse
successfully (standard Decimal behaviour); only unparseable values raise
decimal.InvalidOperation. -/
def decimalOf : PyElem → Except Err Dec
  | .num q => .ok (.fin q)
  | .nanLit => .ok .nan
  | .infLit => .ok .inf
  | .bad => .error .invalidNumber

/-- Value stored for an element whose Decimal conversion succeeds (used in
theorem statements; never applied to a bad element there). -/
def parseOk : PyElem → Dec
  | .num q => .fin q
  | .nanLit => .nan
  | .infLit => .inf
  | .bad => .nan

/-- Conversion loop of the constructor: the list comprehension applying
Decimal to each element left to right, stopping at the first failure. -/
def convertAll : List PyElem → Except Err (List Dec)
  | [] => .ok []
  | x :: xs => do
    let d ← decimalOf x
    let ds ← convertAll xs
    pure (d :: ds)

/-- Model of Vector.__init__: the falsiness guard raises ValueError, then the
elements are converted by Decimal left to right, and the stored tuple is
paired with the dimension len(coordinates). -/
def init (inp : PyInput) : Except Err (List Dec × Nat) :=
  if falsy inp then .error .emptyVector
  else do
    let xs ← elems inp
    let cs ← convertAll xs
    pure (cs, xs.length)

/-- Model of the internal Vector(...) constructor calls of add, sub, mul and
cross on a list of already-valid Decimal values: only the emptiness guard can
fire there. -/
def mkVec (zs : List ℚ) : Except Err Vector :=
  if zs.isEmpty then .error .emptyVector else .ok ⟨zs⟩

/-- Positional pairing loop of dot, add and sub: iterates the first list and
indexes the second one at each position, raising IndexError when the second
list is too short. -/
def pairwise (f : ℚ → ℚ → ℚ) : List ℚ → List ℚ → Except Err (List ℚ)
  | [], _ => .ok []
  | _ :: _, [] => .error .indexError
  | x :: xs, y :: ys => do
    let zs ← pairwise f xs ys
    pure (f x y :: zs)

/-- Sum of squares of the coordinates, the argument of math.sqrt in mag. -/
def sumsq (v : Vector) : ℚ := (v.coordinates.map (fun x => x ^ 2)).sum

/-- Model of the mag property: Decimal(math.sqrt(sum of squares)), with the
float square-root round trip abstracted as the parameter sq. -/
def mag (sq : ℚ → ℚ) (v : Vector) : ℚ := sq (sumsq v)

/-- Model of Vector.dot: isinstance guard, then the positional product loop
followed by sum. -/
def dot (u : Vector) : PyVal → Except Err ℚ
  | .vec v => do
    let zs ← pairwise (fun a b => a * b) u.coordinates v.coordinates
    pure zs.sum
  | _ => .error .notAVector

/-- Model of Vector.cross: isinstance guard, dimension-3 guard, then the
classic 3-dimensional formula built through the Vector constructor. -/
def cross (u : Vector) : PyVal → Except Err Vector
  | .vec v =>
    if u.dimension = 3 ∧ v.dimension = 3 then
      match u.coordinates, v.coordinates with
      | [x1, y1, z1], [x2, y2, z2] =>
        mkVec [y1 * z2 - y2 * z1, -(x1 * z2 - x2 * z1), x1 * y2 - x2 * y1]
      | _, _ => .error .unsupportedDimension
    else .error .unsupportedDimension
  | _ => .error .notAVector

/-- Model of Vector.__mul__: a number operand scales elementwise, a Vector
operand dispatches to cross, anything else raises TypeError. -/
def mul (u : Vector) : PyVal → Except Err Vector
  | .num q => mkVec (u.coordinates.map (fun x => x * q))
  | .vec v => cross u (.vec v)
  | .other => .error .invalidOperand

/-- Model of the norm property: scale by Decimal(1.0)/mag when mag is not
exactly zero, otherwise raise ZeroDivisionError. -/
def norm (sq : ℚ → ℚ) (v : Vector) : Except Err Vector :=
  if mag sq v ≠ 0 then mul v (.num (1 / mag sq v)) else .error .zeroVector

/-- Model of Vector.__add__: isinstance guard, positional sums, then the
Vector constructor. -/
def add (u : Vector) : PyVal → Except Err Vector
  | .vec v => do
    let zs ← pairwise (fun a b => a + b) u.coordinates v.coordinates
    mkVec zs
  | _ => .error .notAVector

/-- Model of Vector.__sub__: isinstance guard, positional differences, then
the Vector constructor. -/
def sub (u : Vector) : PyVal → Except Err Vector
  | .vec v => do
    let zs ← pairwise (fun a b => a - b) u.coordinates v.coordinates
    mkVec zs
  | _ => .error .notAVector

/-- Model of the private clean-angle helper: clamps the cosine to [-1, 1].
The isinstance numbers.Number guard of the source always passes there, since
every call site hands it a Decimal, so it is not modelled as a failure. -/
def cleanAngle (a : ℚ) : ℚ := min 1 (max a (-1))

/-- Model of Vector.theta: isinstance guard, zero-magnitude-product guard,
clamped cosine, arc-cosine (abstract parameter ac), and optional conversion
to degrees (abstract parameter dg). -/
def theta (sq ac dg : ℚ → ℚ) (u : Vector) (x : PyVal) (inDegrees : Bool) :
    Except Err ℚ :=
  match x with
  | .vec v =>
    if mag sq u * mag sq v = 0 then .error .zeroMagnitude
    else do
      let d ← dot u (.vec v)
      let t := ac (cleanAngle (d / (mag sq u * mag sq v)))
      pure (if inDegrees then dg t else t)
  | _ => .error .notAVector

/-- Model of Vector.proj_on: isinstance guard, then dot with the normalized
operand and the scalar-times-vector multiplication. -/
def proj_on (sq : ℚ → ℚ) (u : Vector) : PyVal → Except Err Vector
  | .vec v => do
    let n ← norm sq v
    let d ← dot u (.vec n)
    mul n (.num d)
  | _ => .error .notAVector

/-- Model of Vector.orthogonal_to: isinstance guard, then self minus the
projection on the operand. -/
def orthogonal_to (sq : ℚ → ℚ) (u : Vector) : PyVal → Except Err Vector
  | .vec v => do
    let p ← proj_on sq u (.vec v)
    sub u (.vec p)
  | _ => .error .notAVector

/-- Model of Vector.decompose: isinstance guard, then the pair of the
projection and the orthogonal component. -/
def decompose (sq : ℚ → ℚ) (u : Vector) : PyVal → Except Err (Vector × Vector)
  | .vec v => do
    let p ← proj_on sq u (.vec v)
    let o ← orthogonal_to sq u (.vec v)
    pure (p, o)
  | _ => .error .notAVector

/-- Exact rational value of the float literal 1e-10, the default tolerance of
is_zero and is_orthogonal_to (the comparison of a Decimal against a float in
Python compares exact values). -/
def tol : ℚ := 7737125245533627 / 77371252455336267181195264

/-- Exact rational value of Decimal(math.pi): the Decimal constructor converts
the binary64 value of math.pi exactly. -/
def piFloat : ℚ := 884279719003555 / 281474976710656

/-- Model of Vector.is_zero with the default tolerance: mag < 1e-10. -/
def is_zero (sq : ℚ → ℚ) (v : Vector) : Bool :=
  decide (mag sq v < tol)

/-- Model of Vector.is_orthogonal_to with the default tolerance:
abs(dot) < 1e-10 after the isinstance guard. -/
def is_orthogonal_to (u : Vector) : PyVal → Except Err Bool
  | .vec v => do
    let d ← dot u (.vec v)
    pure (decide (|d| < tol))
  | _ => .error .notAVector

/-- Model of Vector.is_parallel_to: isinstance guard, then the short-circuit
disjunction is_zero(self) or is_zero(v) or theta == Decimal(math.pi) or
theta == Decimal(0); the theta property is evaluated once per comparison,
exactly as the source re-evaluates it. -/
def is_parallel_to (sq ac dg : ℚ → ℚ) (u : Vector) : PyVal → Except Err Bool
  | .vec v =>
    if is_zero sq u then .ok true
    else if is_zero sq v then .ok true
    else do
      let t1 ← theta sq ac dg u (.vec v) false
      if t1 = piFloat then pure true
      else do
        let t2 ← theta sq ac dg u (.vec v) false
        pure (decide (t2 = 0))
  | _ => .error .notAVector

/-- Mathematical inner product used in theorem statements: the sum of the
elementwise products paired by position. -/
def ip (xs ys : List ℚ) : ℚ := (List.zipWith (fun a b => a * b) xs ys).sum

/-! Helper lemmas about the Except monad and the pairing loop. -/

theorem ok_bind {α β : Type} (a : α) (f : α → Except Err β) :
    (Except.ok a >>= f) = f a := rfl

theorem error_bind {α β : Type} (e : Err) (f : α → Except Err β) :
    ((Except.error e : Except Err α) >>= f) = Except.error e := rfl

theorem pure_eq_ok {α : Type} (a : α) : (pure a : Except Err α) = .ok a := rfl

theorem pairwise_ok (f : ℚ → ℚ → ℚ) :
    ∀ xs ys : List ℚ, xs.length ≤ ys.length →
      pairwise f xs ys = .ok (List.zipWith f xs ys)
  | [], ys, _ => by simp [pairwise]
  | x :: xs, [], h => by simp at h
  | x :: xs, y :: ys, h => by
    have ih := pairwise_ok f xs ys (by simpa using h)
    simp [pairwise, ih, ok_bind, pure_eq_ok]

theorem pairwise_err (f : ℚ → ℚ → ℚ) :
    ∀ xs ys : List ℚ, ys.length < xs.length →
      pairwise f xs ys = .error .indexError
  | [], ys, h => by simp at h
  | x :: xs, [], _ => by simp [pairwise]
  | x :: xs, y :: ys, h => by
    have ih := pairwise_err f xs ys (by simpa using h)
    simp [pairwise, ih, error_bind]

theorem pairwise_cases (f : ℚ → ℚ → ℚ) (xs ys : List ℚ) :
    pairwise f xs ys = .ok (List.zipWith f xs ys) ∨
      pairwise f xs ys = .error .indexError := by
  rcases le_or_lt xs.length ys.length with h | h
  · exact Or.inl (pairwise_ok f xs ys h)
  · exact Or.inr (pairwise_err f xs ys h)

theorem zipWith_take_len (f : ℚ → ℚ → ℚ) :
    ∀ xs ys : List ℚ, List.zipWith f xs (ys.take xs.length) = List.zipWith f xs ys
  | [], ys => by simp
  | x :: xs, [] => by simp
  | x :: xs, y :: ys => by simp [zipWith_take_len f xs ys]

theorem dot_ok (u v : Vector) (h : u.coordinates.length ≤ v.coordinates.length) :
    dot u (.vec v) = .ok (ip u.coordinates v.coordinates) := by
  simp [dot, pairwise_ok _ _ _ h, ok_bind, pure_eq_ok, ip]

/-! Claim theorems. -/

/-- C5 (evaluation at the failing input): the constructor maps the falsy
non-iterable inputs 0 and None to the empty-vector ValueError, not to the
not-iterable TypeError promised by the docstring; a truthy non-iterable gets
the TypeError and an empty iterable the ValueError. -/
theorem init_falsy_eval :
    init (.nonIter false) = .error .emptyVector ∧
    init (.nonIter true) = .error .notIterable ∧
    init (.iter []) = .error .emptyVector :=
  ⟨rfl, rfl, rfl⟩

/-- C4 (counterexample): construction from a single NaN literal succeeds and
stores the non-finite Decimal NaN, so a constructed Vector can hold a value
that is not a finite decimal number. -/
theorem init_nan_counterexample :
    init (.iter [PyElem.nanLit]) = .ok ([Dec.nan], 1) ∧
      ∀ q : ℚ, Dec.nan ≠ Dec.fin q :=
  ⟨rfl, fun _ h => by cases h⟩

theorem convertAll_spec (xs : List PyElem) :
    (PyElem.bad ∈ xs → convertAll xs = .error .invalidNumber) ∧
    (PyElem.bad ∉ xs → convertAll xs = .ok (xs.map parseOk)) := by
  induction xs with
  | nil => simp [convertAll]
  | cons x xs ih =>
    constructor
    · intro hmem
      rcases List.mem_cons.mp hmem with hx | hx
      · subst hx
        simp [convertAll, decimalOf, error_bind]
      · rcases h : decimalOf x with e | d
        · cases x <;> simp_all [decimalOf, convertAll, error_bind]
        · simp [convertAll, h, ok_bind, ih.1 hx, error_bind]
    · intro hmem
      have hx : x ≠ PyElem.bad := fun h => hmem (by simp [h])
      have hxs : PyElem.bad ∉ xs := fun h => hmem (List.mem_cons_of_mem _ h)
      have hd : decimalOf x = .ok (parseOk x) := by
        cases x <;> simp [decimalOf, parseOk] at hx ⊢
      simp [convertAll, hd, ok_bind, ih.2 hxs, pure_eq_ok]

/-- C4 (amended): on a non-empty iterable input, construction fails with
InvalidNumberError exactly when some element cannot be parsed as a Decimal at
all; when every element parses (which includes NaN and Infinity literals),
construction succeeds and stores exactly the parsed Decimal of each element,
with the input length as dimension. -/
theorem init_elements_spec (xs : List PyElem) (hne : xs ≠ []) :
    (init (.iter xs) = .error .invalidNumber ↔ PyElem.bad ∈ xs) ∧
    (PyElem.bad ∉ xs → init (.iter xs) = .ok (xs.map parseOk, xs.length)) := by
  have hfalsy : falsy (.iter xs) = false := by
    simp [falsy, List.isEmpty_iff, hne]
  constructor
  · constructor
    · intro h
      by_contra hmem
      rw [init, hfalsy] at h
      simp [elems, ok_bind, (convertAll_spec xs).2 hmem, pure_eq_ok] at h
    · intro hmem
      rw [init, hfalsy]
      simp [elems, ok_bind, (convertAll_spec xs).1 hmem, error_bind]
  · intro hmem
    rw [init, hfalsy]
    simp [elems, ok_bind, (convertAll_spec xs).2 hmem, pure_eq_ok]

/-- C4 (witness): a concrete two-element input with an Infinity literal
constructs successfully and stores the parsed Decimals. -/
theorem init_elements_spec_witness :
    ([PyElem.num 2, PyElem.infLit] ≠ ([] : List PyElem)) ∧
      init (.iter [PyElem.num 2, PyElem.infLit]) =
        .ok ([Dec.fin 2, Dec.inf], 2) :=
  ⟨by decide, (init_elements_spec [PyElem.num 2, PyElem.infLit] (by decide)).2
    (by decide)⟩

/-- C6: for equal-dimension operands, dot returns the sum of the elementwise
products paired by position; a non-Vector operand fails with NotAVectorError;
and dot of (1, 2, 3) with (4, 5, 6) is exactly 32. -/
theorem dot_spec (u v : Vector) (q : ℚ) :
    (u.dimension = v.dimension →
      dot u (.vec v) = .ok (ip u.coordinates v.coordinates)) ∧
    dot u (.num q) = .error .notAVector ∧
    dot u PyVal.other = .error .notAVector ∧
    dot ⟨[1, 2, 3]⟩ (.vec ⟨[4, 5, 6]⟩) = .ok 32 := by
  refine ⟨fun h => dot_ok u v (le_of_eq h), rfl, rfl, ?_⟩
  have h := dot_ok ⟨[1, 2, 3]⟩ ⟨[4, 5, 6]⟩ (by simp)
  rw [h]
  norm_num [ip]

/-- C6 (witness): the equal-dimension case at the concrete vectors of the
spec example. -/
theorem dot_spec_witness :
    (⟨[1, 2, 3]⟩ : Vector).dimension = (⟨[4, 5, 6]⟩ : Vector).dimension ∧
      dot ⟨[1, 2, 3]⟩ (.vec ⟨[4, 5, 6]⟩) = .ok (ip [1, 2, 3] [4, 5, 6]) :=
  ⟨by decide, (dot_spec ⟨[1, 2, 3]⟩ ⟨[4, 5, 6]⟩ 0).1 (by decide)⟩

/-- C3: cross succeeds exactly when both operands have dimension 3, returning
the classic formula; any other dimensions fail with UnsupportedDimensionError
and a non-Vector operand fails with NotAVectorError. -/
theorem cross_spec (u v : Vector) (q : ℚ) :
    ((∃ w, cross u (.vec v) = .ok w) ↔ u.dimension = 3 ∧ v.dimension = 3) ∧
    (∀ x1 y1 z1 x2 y2 z2 : ℚ, u.coordinates = [x1, y1, z1] →
      v.coordinates = [x2, y2, z2] →
      cross u (.vec v) =
        .ok ⟨[y1 * z2 - y2 * z1, -(x1 * z2 - x2 * z1), x1 * y2 - x2 * y1]⟩) ∧
    (¬(u.dimension = 3 ∧ v.dimension = 3) →
      cross u (.vec v) = .error .unsupportedDimension) ∧
    cross u (.num q) = .error .notAVector ∧
    cross u PyVal.other = .error .notAVector := by
  have key : ∀ x1 y1 z1 x2 y2 z2 : ℚ, u.coordinates = [x1, y1, z1] →
      v.coordinates = [x2, y2, z2] →
      cross u (.vec v) =
        .ok ⟨[y1 * z2 - y2 * z1, -(x1 * z2 - x2 * z1), x1 * y2 - x2 * y1]⟩ := by
    intro x1 y1 z1 x2 y2 z2 hcu hcv
    have h3u : u.dimension = 3 := by simp [Vector.dimension, hcu]
    have h3v : v.dimension = 3 := by simp [Vector.dimension, hcv]
    simp [cross, h3u, h3v, hcu, hcv, mkVec]
  have hneg : ¬(u.dimension = 3 ∧ v.dimension = 3) →
      cross u (.vec v) = .error .unsupportedDimension := by
    intro h
    simp only [cross, if_neg h]
  refine ⟨⟨?_, ?_⟩, key, hneg, rfl, rfl⟩
  · rintro ⟨w, hw⟩
    by_contra h
    rw [hneg h] at hw
    cases hw
  · rintro ⟨h3u, h3v⟩
    obtain ⟨x1, y1, z1, hcu⟩ := List.length_eq_three.mp h3u
    obtain ⟨x2, y2, z2, hcv⟩ := List.length_eq_three.mp h3v
    exact ⟨_, key x1 y1 z1 x2 y2 z2 hcu hcv⟩

/-- C3 (witness): the dimension-3 success case at concrete vectors. -/
theorem cross_spec_witness :
    (⟨[1, 2, 3]⟩ : Vector).coordinates = [1, 2, 3] ∧
    (⟨[4, 5, 6]⟩ : Vector).coordinates = [4, 5, 6] ∧
      cross ⟨[1, 2, 3]⟩ (.vec ⟨[4, 5, 6]⟩) =
        .ok ⟨[2 * 6 - 5 * 3, -(1 * 6 - 4 * 3), 1 * 5 - 4 * 2]⟩ :=
  ⟨rfl, rfl,
    (cross_spec ⟨[1, 2, 3]⟩ ⟨[4, 5, 6]⟩ 0).2.1 1 2 3 4 5 6 rfl rfl⟩

/-- C10: with mismatched dimensions, add, sub and dot silently truncate the
longer operand when it is the second one (the result keeping the first
operand's dimension), and fail with IndexError when the second operand is
strictly shorter. -/
theorem mismatch_spec (u v : Vector) (hu : u.coordinates ≠ []) :
    (u.dimension < v.dimension →
      add u (.vec v) = .ok
        ⟨List.zipWith (fun a b => a + b) u.coordinates
          (v.coordinates.take u.dimension)⟩ ∧
      sub u (.vec v) = .ok
        ⟨List.zipWith (fun a b => a - b) u.coordinates
          (v.coordinates.take u.dimension)⟩ ∧
      dot u (.vec v) = .ok (ip u.coordinates (v.coordinates.take u.dimension)) ∧
      (⟨List.zipWith (fun a b => a + b) u.coordinates
          (v.coordinates.take u.dimension)⟩ : Vector).dimension = u.dimension ∧
      (⟨List.zipWith (fun a b => a - b) u.coordinates
          (v.coordinates.take u.dimension)⟩ : Vector).dimension = u.dimension) ∧
    (v.dimension < u.dimension →
      add u (.vec v) = .error .indexError ∧
      sub u (.vec v) = .error .indexError ∧
      dot u (.vec v) = .error .indexError) := by
  constructor
  · intro h
    have hle : u.coordinates.length ≤ v.coordinates.length := le_of_lt h
    have hv : v.coordinates ≠ [] := by
      intro hz
      have : v.coordinates.length = 0 := by simp [hz]
      have hdim : u.dimension < v.dimension := h
      simp only [Vector.dimension, this] at hdim
      omega
    refine ⟨?_, ?_, ?_, ?_, ?_⟩
    · simp [add, pairwise_ok _ _ _ hle, ok_bind, mkVec, hu, hv,
        Vector.dimension, zipWith_take_len]
    · simp [sub, pairwise_ok _ _ _ hle, ok_bind, mkVec, hu, hv,
        Vector.dimension, zipWith_take_len]
    · rw [dot_ok u v hle]
      simp [ip, Vector.dimension, zipWith_take_len]
    · simp [Vector.dimension, List.length_zipWith, List.length_take]
      omega
    · simp [Vector.dimension, List.length_zipWith, List.length_take]
      omega
  · intro h
    refine ⟨?_, ?_, ?_⟩ <;>
      simp [add, sub, dot, pairwise_err _ _ _ h, error_bind]

/-- C10 (witness): a shorter first operand truncates and succeeds; a longer
first operand hits the IndexError. -/
theorem mismatch_spec_witness :
    ((⟨[1]⟩ : Vector).coordinates ≠ []) ∧
    ((⟨[1]⟩ : Vector).dimension < (⟨[2, 3]⟩ : Vector).dimension) ∧
    ((⟨[2, 3]⟩ : Vector).dimension < (⟨[4, 5, 6]⟩ : Vector).dimension → True) ∧
    dot ⟨[1]⟩ (.vec ⟨[2, 3]⟩) =
      .ok (ip (⟨[1]⟩ : Vector).coordinates
        ((⟨[2, 3]⟩ : Vector).coordinates.take (⟨[1]⟩ : Vector).dimension)) ∧
    dot ⟨[2, 3]⟩ (.vec ⟨[1]⟩) = .error .indexError :=
  ⟨by decide, by decide, fun _ => trivial,
    ((mismatch_spec ⟨[1]⟩ ⟨[2, 3]⟩ (by decide)).1 (by decide)).2.2.1,
    ((mismatch_spec ⟨[2, 3]⟩ ⟨[1]⟩ (by decide)).2 (by decide)).2.2⟩

/-- C8: for dimension-3 vectors the cross product is anti-commutative:
cross u v equals cross v u scaled by -1 through the number branch of mul. -/
theorem cross_anticomm (u v : Vector) (hu : u.dimension = 3)
    (hv : v.dimension = 3) :
    ∃ c d, cross u (.vec v) = .ok c ∧ cross v (.vec u) = .ok d ∧
      mul d (.num (-1)) = .ok c := by
  obtain ⟨x1, y1, z1, hcu⟩ := List.length_eq_three.mp hu
  obtain ⟨x2, y2, z2, hcv⟩ := List.length_eq_three.mp hv
  refine ⟨⟨[y1 * z2 - y2 * z1, -(x1 * z2 - x2 * z1), x1 * y2 - x2 * y1]⟩,
    ⟨[y2 * z1 - y1 * z2, -(x2 * z1 - x1 * z2), x2 * y1 - x1 * y2]⟩, ?_, ?_, ?_⟩
  · simp [cross, hu, hv, hcu, hcv, Vector.dimension, mkVec]
  · simp [cross, hu, hv, hcu, hcv, Vector.dimension, mkVec]
  · simp only [mul, mkVec, List.map_cons, List.map_nil, List.isEmpty_cons,
      Bool.false_eq_true, if_false, Except.ok.injEq, Vector.mk.injEq,
      List.cons.injEq, and_true]
    refine ⟨by ring, by ring, by ring⟩

/-- C8 (witness): anti-commutativity at a concrete pair of 3-dimensional
vectors. -/
theorem cross_anticomm_witness :
    (⟨[1, 2, 3]⟩ : Vector).dimension = 3 ∧
    (⟨[2, 7, 11]⟩ : Vector).dimension = 3 ∧
      ∃ c d, cross ⟨[1, 2, 3]⟩ (.vec ⟨[2, 7, 11]⟩) = .ok c ∧
        cross ⟨[2, 7, 11]⟩ (.vec ⟨[1, 2, 3]⟩) = .ok d ∧
        mul d (.num (-1)) = .ok c :=
  ⟨by decide, by decide, cross_anticomm _ _ (by decide) (by decide)⟩

/-- C1: theta fails with ZeroMagnitudeError exactly when the product of the
two magnitudes is exactly zero; otherwise (for compatible dimensions) it
returns the arc-cosine of the quotient dot/(mag*mag) clamped to [-1, 1]
(radians by default, the degree conversion when in_degrees is set), and the
clamped cosine always lies in the arc-cosine domain [-1, 1]. -/
theorem theta_spec (sq ac dg : ℚ → ℚ) (u v : Vector) (b : Bool) :
    (theta sq ac dg u (.vec v) b = .error .zeroMagnitude ↔
      mag sq u * mag sq v = 0) ∧
    (mag sq u * mag sq v ≠ 0 → u.dimension = v.dimension →
      theta sq ac dg u (.vec v) false =
        .ok (ac (cleanAngle
          (ip u.coordinates v.coordinates / (mag sq u * mag sq v)))) ∧
      theta sq ac dg u (.vec v) true =
        .ok (dg (ac (cleanAngle
          (ip u.coordinates v.coordinates / (mag sq u * mag sq v))))) ∧
      -1 ≤ cleanAngle (ip u.coordinates v.coordinates /
        (mag sq u * mag sq v)) ∧
      cleanAngle (ip u.coordinates v.coordinates /
        (mag sq u * mag sq v)) ≤ 1) := by
  constructor
  · by_cases h0 : mag sq u * mag sq v = 0
    · simp [theta, h0]
    · rcases pairwise_cases (fun a b => a * b) u.coordinates v.coordinates
        with hp | hp
      · simp [theta, h0, dot, hp, ok_bind, pure_eq_ok]
      · simp [theta, h0, dot, hp, error_bind]
  · intro h0 hdim
    have hd : dot u (.vec v) = .ok (ip u.coordinates v.coordinates) :=
      dot_ok u v (le_of_eq hdim)
    refine ⟨?_, ?_, ?_, ?_⟩
    · simp [theta, h0, hd, ok_bind, pure_eq_ok]
    · simp [theta, h0, hd, ok_bind, pure_eq_ok]
    · exact le_min (by norm_num) (le_max_right _ _)
    · exact min_le_left _ _

/-- C1 (witness): the success case at concrete unit vectors with the float
primitives instantiated by concrete functions. -/
theorem theta_spec_witness :
    mag (fun _ => (1 : ℚ)) ⟨[1]⟩ * mag (fun _ => (1 : ℚ)) ⟨[1]⟩ ≠ 0 ∧
    (⟨[1]⟩ : Vector).dimension = (⟨[1]⟩ : Vector).dimension ∧
      theta (fun _ => (1 : ℚ)) (fun t => t) (fun t => t) ⟨[1]⟩
        (.vec ⟨[1]⟩) false =
        .ok (cleanAngle ((ip [1] [1] : ℚ) /
          (mag (fun _ => (1 : ℚ)) ⟨[1]⟩ * mag (fun _ => (1 : ℚ)) ⟨[1]⟩))) :=
  ⟨by norm_num [mag], rfl,
    ((theta_spec (fun _ => (1 : ℚ)) (fun t => t) (fun t => t) ⟨[1]⟩ ⟨[1]⟩
      false).2 (by norm_num [mag]) rfl).1⟩

/-- C2: norm fails with ZeroVectorError exactly when mag is exactly zero (no
tolerance band), otherwise returns the vector scaled by 1/mag; and proj_on
fails with that ZeroVectorError exactly when the operand has zero
magnitude. -/
theorem norm_proj_spec (sq : ℚ → ℚ) (u w : Vector) :
    (norm sq w = .error .zeroVector ↔ mag sq w = 0) ∧
    (mag sq w ≠ 0 → w.coordinates ≠ [] →
      norm sq w = .ok ⟨w.coordinates.map (fun x => x * (1 / mag sq w))⟩) ∧
    (proj_on sq u (.vec w) = .error .zeroVector ↔ mag sq w = 0) := by
  have hnormCases : mag sq w ≠ 0 →
      norm sq w = .ok ⟨w.coordinates.map (fun x => x * (1 / mag sq w))⟩ ∨
        norm sq w = .error .emptyVector := by
    intro hm
    by_cases hw : w.coordinates = []
    · right
      simp [norm, hm, mul, mkVec, hw]
    · left
      simp [norm, hm, mul, mkVec, hw]
  refine ⟨⟨?_, ?_⟩, ?_, ⟨?_, ?_⟩⟩
  · intro h
    by_contra hm
    rcases hnormCases hm with h1 | h1 <;> rw [h1] at h <;> simp at h
  · intro hm
    simp [norm, hm]
  · intro hm hw
    simp [norm, hm, mul, mkVec, hw]
  · intro h
    by_contra hm
    rcases hnormCases hm with h1 | h1
    · rcases pairwise_cases (fun a b => a * b) u.coordinates
        (w.coordinates.map (fun x => x * (1 / mag sq w))) with hp | hp
      · simp only [proj_on, h1, ok_bind, dot, hp, pure_eq_ok, mul, mkVec] at h
        split at h <;> simp at h
      · simp only [proj_on, h1, ok_bind, dot, hp, error_bind] at h
        simp at h
    · simp only [proj_on, h1, error_bind] at h
      simp at h
  · intro hm
    simp [proj_on, norm, hm, error_bind]

/-- C2 (witness): the non-zero-magnitude case at a concrete vector with a
concrete square-root model. -/
theorem norm_proj_spec_witness :
    mag (fun _ => (5 : ℚ)) ⟨[3, 4]⟩ ≠ 0 ∧
    (⟨[3, 4]⟩ : Vector).coordinates ≠ [] ∧
      norm (fun _ => (5 : ℚ)) ⟨[3, 4]⟩ = .ok ⟨[3 * (1 / 5), 4 * (1 / 5)]⟩ :=
  ⟨by decide, by decide,
    (norm_proj_spec (fun _ => (5 : ℚ)) ⟨[1, 1]⟩ ⟨[3, 4]⟩).2.1
      (by decide) (by decide)⟩

/-- C9: is_parallel_to returns true exactly when self is_zero, or the operand
is_zero, or the angle is exactly Decimal(math.pi) or exactly Decimal(0) (no
tolerance in the comparison); and the zero-magnitude angle error of theta is
never raised inside is_parallel_to, because the is_zero guards run first. -/
theorem is_parallel_spec (sq ac dg : ℚ → ℚ) (u v : Vector) :
    is_parallel_to sq ac dg u (.vec v) ≠ .error .zeroMagnitude ∧
    (u.dimension = v.dimension →
      ∃ b, is_parallel_to sq ac dg u (.vec v) = .ok b ∧
        (b = true ↔ is_zero sq u = true ∨ is_zero sq v = true ∨
          ∃ t, theta sq ac dg u (.vec v) false = .ok t ∧
            (t = piFloat ∨ t = 0))) := by
  by_cases z1 : is_zero sq u = true
  · refine ⟨by simp [is_parallel_to, z1], fun _ => ⟨true, ?_, ?_⟩⟩
    · simp [is_parallel_to, z1]
    · simp [z1]
  by_cases z2 : is_zero sq v = true
  · refine ⟨by simp [is_parallel_to, z1, z2], fun _ => ⟨true, ?_, ?_⟩⟩
    · simp [is_parallel_to, z1, z2]
    · simp [z2]
  have htol : (0 : ℚ) < tol := by norm_num [tol]
  have hmu : 0 < mag sq u :=
    lt_of_lt_of_le htol (not_lt.mp (by simpa [is_zero] using z1))
  have hmv : 0 < mag sq v :=
    lt_of_lt_of_le htol (not_lt.mp (by simpa [is_zero] using z2))
  have h0 : mag sq u * mag sq v ≠ 0 := (mul_pos hmu hmv).ne'
  constructor
  · rcases pairwise_cases (fun a b => a * b) u.coordinates v.coordinates
      with hp | hp
    · simp only [is_parallel_to, z1, z2, if_false, theta, h0, dot, hp,
        ok_bind, pure_eq_ok]
      split <;> simp
      split <;> simp
    · simp only [is_parallel_to, z1, z2, if_false, theta, h0, dot, hp,
        error_bind]
      simp
  · intro hdim
    have hd : dot u (.vec v) = .ok (ip u.coordinates v.coordinates) :=
      dot_ok u v (le_of_eq hdim)
    have hteq : theta sq ac dg u (.vec v) false =
        .ok (ac (cleanAngle (ip u.coordinates v.coordinates /
          (mag sq u * mag sq v)))) := by
      simp [theta, h0, hd, ok_bind, pure_eq_ok]
    by_cases hpi : ac (cleanAngle (ip u.coordinates v.coordinates /
        (mag sq u * mag sq v))) = piFloat
    · refine ⟨true, ?_, ?_⟩
      · simp [is_parallel_to, z1, z2, hteq, ok_bind, pure_eq_ok, hpi]
      · simp only [true_iff]
        exact Or.inr (Or.inr ⟨_, hteq, Or.inl hpi⟩)
    · refine ⟨decide (ac (cleanAngle (ip u.coordinates v.coordinates /
        (mag sq u * mag sq v))) = 0), ?_, ?_⟩
      · simp [is_parallel_to, z1, z2, hteq, ok_bind, pure_eq_ok, hpi]
      · simp only [decide_eq_true_eq]
        constructor
        · intro hz
          exact Or.inr (Or.inr ⟨_, hteq, Or.inr hz⟩)
        · rintro (hz | hz | ⟨t, ht, hor⟩)
          · exact absurd hz z1
          · exact absurd hz z2
          · rw [hteq] at ht
            cases ht
            rcases hor with h | h
            · exact absurd h hpi
            · exact h

/-- C9 (witness): the guarded case at concrete non-zero vectors of equal
dimension. -/
theorem is_parallel_spec_witness :
    (⟨[1]⟩ : Vector).dimension = (⟨[2]⟩ : Vector).dimension ∧
      ∃ b, is_parallel_to (fun _ => (1 : ℚ)) (fun t => t) (fun t => t)
          ⟨[1]⟩ (.vec ⟨[2]⟩) = .ok b ∧
        (b = true ↔ is_zero (fun _ => (1 : ℚ)) ⟨[1]⟩ = true ∨
          is_zero (fun _ => (1 : ℚ)) ⟨[2]⟩ = true ∨
          ∃ t, theta (fun _ => (1 : ℚ)) (fun t => t) (fun t => t) ⟨[1]⟩
              (.vec ⟨[2]⟩) false = .ok t ∧ (t = piFloat ∨ t = 0)) :=
  ⟨rfl, (is_parallel_spec (fun _ => (1 : ℚ)) (fun t => t) (fun t => t)
    ⟨[1]⟩ ⟨[2]⟩).2 rfl⟩

/-! Helper algebra about the inner product, used for the decomposition
claim. -/

theorem ip_cons (x y : ℚ) (xs ys : List ℚ) :
    ip (x :: xs) (y :: ys) = x * y + ip xs ys := by
  simp [ip]

theorem ip_sub_left : ∀ as bs cs : List ℚ, as.length = bs.length →
    ip (List.zipWith (fun a b => a - b) as bs) cs = ip as cs - ip bs cs
  | [], [], cs, _ => by simp [ip]
  | [], _ :: _, _, h => by simp at h
  | _ :: _, [], _, h => by simp at h
  | a :: as, b :: bs, [], _ => by simp [ip]
  | a :: as, b :: bs, c :: cs, h => by
    have ih := ip_sub_left as bs cs (by simpa using h)
    simp only [List.zipWith_cons_cons, ip_cons, ih]
    ring

theorem ip_map_right_mul (c : ℚ) : ∀ xs ys : List ℚ,
    ip xs (ys.map (fun y => y * c)) = c * ip xs ys
  | [], ys => by simp [ip]
  | _ :: _, [] => by simp [ip]
  | x :: xs, y :: ys => by
    have ih := ip_map_right_mul c xs ys
    simp only [List.map_cons, ip_cons, ih]
    ring

theorem ip_map2_left (c1 c2 : ℚ) : ∀ xs ys : List ℚ,
    ip ((xs.map (fun x => x * c1)).map (fun x => x * c2)) ys =
      c1 * c2 * ip xs ys
  | [], ys => by simp [ip]
  | _ :: _, [] => by simp [ip]
  | x :: xs, y :: ys => by
    have ih := ip_map2_left c1 c2 xs ys
    simp only [List.map_cons, ip_cons, ih]
    ring

theorem zip_add_sub : ∀ ps vs : List ℚ, ps.length = vs.length →
    List.zipWith (fun a b => a + b) ps
      (List.zipWith (fun a b => a - b) vs ps) = vs
  | [], [], _ => rfl
  | [], _ :: _, h => by simp at h
  | _ :: _, [], h => by simp at h
  | p :: ps, v :: vs, h => by
    have ih := zip_add_sub ps vs (by simpa using h)
    simp only [List.zipWith_cons_cons, ih, List.cons.injEq]
    exact ⟨by ring, trivial⟩

theorem ip_self_eq_sumsq : ∀ xs : List ℚ,
    ip xs xs = (xs.map (fun x => x ^ 2)).sum
  | [] => by simp [ip]
  | x :: xs => by
    simp only [ip_cons, List.map_cons, List.sum_cons, ip_self_eq_sumsq xs]
    ring

/-- C7: for equal-dimension vectors with a non-zero-magnitude operand (and a
square root that is exact on the operand's sum of squares, the idealisation of
the float square-root step), decompose returns the pair of the projection and
the orthogonal component, the pair sums back to self exactly, and the second
component passes is_orthogonal_to. -/
theorem decompose_spec (sq : ℚ → ℚ) (v w : Vector)
    (hv : v.coordinates ≠ [])
    (hdim : v.dimension = w.dimension)
    (hm : mag sq w ≠ 0)
    (hsq : mag sq w ^ 2 = sumsq w) :
    ∃ p o, decompose sq v (.vec w) = .ok (p, o) ∧
      proj_on sq v (.vec w) = .ok p ∧
      orthogonal_to sq v (.vec w) = .ok o ∧
      add p (.vec o) = .ok v ∧
      is_orthogonal_to o (.vec w) = .ok true := by
  have hlen : v.coordinates.length = w.coordinates.length := hdim
  have hw : w.coordinates ≠ [] := by
    intro h
    apply hv
    have h0 : v.coordinates.length = 0 := by rw [hlen, h]; rfl
    exact List.length_eq_zero.mp h0
  obtain ⟨n, hnorm, hncoords⟩ :
      ∃ n : Vector, norm sq w = .ok n ∧
        n.coordinates = w.coordinates.map (fun x => x * (1 / mag sq w)) :=
    ⟨⟨w.coordinates.map (fun x => x * (1 / mag sq w))⟩,
      by simp [norm, hm, mul, mkVec, hw], rfl⟩
  have hnlen : n.coordinates.length = w.coordinates.length := by
    simp [hncoords]
  have hnne : n.coordinates ≠ [] := by
    rw [hncoords]
    simp [hw]
  have hdot : dot v (.vec n) = .ok (ip v.coordinates n.coordinates) :=
    dot_ok v n (by rw [hnlen, ← hlen])
  obtain ⟨p, hmul, hpcoords⟩ :
      ∃ p : Vector, mul n (.num (ip v.coordinates n.coordinates)) = .ok p ∧
        p.coordinates = n.coordinates.map
          (fun x => x * ip v.coordinates n.coordinates) :=
    ⟨⟨n.coordinates.map (fun x => x * ip v.coordinates n.coordinates)⟩,
      by simp [mul, mkVec, hnne], rfl⟩
  have hproj : proj_on sq v (.vec w) = .ok p := by
    simp [proj_on, hnorm, ok_bind, hdot, hmul]
  have hplen : p.coordinates.length = w.coordinates.length := by
    simp [hpcoords, hnlen]
  obtain ⟨o, hsub, hocoords⟩ :
      ∃ o : Vector, sub v (.vec p) = .ok o ∧
        o.coordinates = List.zipWith (fun a b => a - b)
          v.coordinates p.coordinates := by
    have hle : v.coordinates.length ≤ p.coordinates.length := by
      rw [hplen, ← hlen]
    have hlz : (List.zipWith (fun a b => a - b) v.coordinates
        p.coordinates).length = v.coordinates.length := by
      rw [List.length_zipWith, hplen, ← hlen, min_self]
    have hzne : List.zipWith (fun a b => a - b) v.coordinates
        p.coordinates ≠ [] := by
      intro h
      apply hv
      rw [h] at hlz
      exact List.length_eq_zero.mp hlz.symm
    exact ⟨⟨List.zipWith (fun a b => a - b) v.coordinates p.coordinates⟩,
      by simp [sub, pairwise_ok _ _ _ hle, ok_bind, mkVec, hzne], rfl⟩
  have horth : orthogonal_to sq v (.vec w) = .ok o := by
    simp [orthogonal_to, hproj, ok_bind, hsub]
  have hdecomp : decompose sq v (.vec w) = .ok (p, o) := by
    simp [decompose, hproj, horth, ok_bind, pure_eq_ok]
  have holen : o.coordinates.length = v.coordinates.length := by
    rw [hocoords, List.length_zipWith, hplen, ← hlen, min_self]
  have hadd : add p (.vec o) = .ok v := by
    have haddle : p.coordinates.length ≤ o.coordinates.length := by
      rw [holen, hplen, ← hlen]
    have hzadd : List.zipWith (fun a b => a + b) p.coordinates
        o.coordinates = v.coordinates := by
      rw [hocoords]
      exact zip_add_sub p.coordinates v.coordinates (by rw [hplen, ← hlen])
    simp [add, pairwise_ok _ _ _ haddle, ok_bind, hzadd, mkVec, hv]
  have hdoto : dot o (.vec w) = .ok (ip o.coordinates w.coordinates) :=
    dot_ok o w (by rw [holen, hlen])
  have hipzero : ip o.coordinates w.coordinates = 0 := by
    have e1 : ip p.coordinates w.coordinates =
        (1 / mag sq w) * ip v.coordinates n.coordinates *
          ip w.coordinates w.coordinates := by
      rw [hpcoords, hncoords, ip_map2_left]
    have e2 : ip v.coordinates n.coordinates =
        (1 / mag sq w) * ip v.coordinates w.coordinates := by
      rw [hncoords, ip_map_right_mul]
    have e3 : ip w.coordinates w.coordinates = mag sq w ^ 2 := by
      rw [ip_self_eq_sumsq]
      exact hsq.symm
    rw [hocoords, ip_sub_left _ _ _ (by rw [hplen, ← hlen]), e1, e2, e3]
    field_simp
    ring
  have habs : |ip o.coordinates w.coordinates| < tol := by
    rw [hipzero]
    norm_num [tol]
  have horthdot : is_orthogonal_to o (.vec w) = .ok true := by
    simp [is_orthogonal_to, hdoto, ok_bind, pure_eq_ok, habs]
  exact ⟨p, o, hdecomp, hproj, horth, hadd, horthdot⟩

/-- C7 (witness): the decomposition at concrete vectors with an exact
square-root model (the sum of squares of (3, 4) is the perfect square 25). -/
theorem decompose_spec_witness :
    ((⟨[1, 1]⟩ : Vector).coordinates ≠ []) ∧
    ((⟨[1, 1]⟩ : Vector).dimension = (⟨[3, 4]⟩ : Vector).dimension) ∧
    (mag (fun _ => (5 : ℚ)) ⟨[3, 4]⟩ ≠ 0) ∧
    (mag (fun _ => (5 : ℚ)) ⟨[3, 4]⟩ ^ 2 = sumsq ⟨[3, 4]⟩) ∧
    (∃ p o, decompose (fun _ => (5 : ℚ)) ⟨[1, 1]⟩ (.vec ⟨[3, 4]⟩) =
        .ok (p, o) ∧
      proj_on (fun _ => (5 : ℚ)) ⟨[1, 1]⟩ (.vec ⟨[3, 4]⟩) = .ok p ∧
      orthogonal_to (fun _ => (5 : ℚ)) ⟨[1, 1]⟩ (.vec ⟨[3, 4]⟩) = .ok o ∧
      add p (.vec o) = .ok ⟨[1, 1]⟩ ∧
      is_orthogonal_to o (.vec ⟨[3, 4]⟩) = .ok true) :=
  ⟨by decide, by decide, by decide, by norm_num [mag, sumsq],
    decompose_spec (fun _ => (5 : ℚ)) ⟨[1, 1]⟩ ⟨[3, 4]⟩ (by decide)
      (by decide) (by decide) (by norm_num [mag, sumsq])⟩

end Laru
